import Mathlib

/-!
Verification development for the `img4web` repository.

The repository contains three TypeScript variants of the same CLI tool:

* `src/unnamed/part_000` — the refactored implementation (interactive and CLI
  mode, images and videos), with helpers `findMedia`, `compressImage`,
  `compressVideo`, `processFile`, `loadDimensions` and `main`;
* `src/unnamed/part_001` — the original monolithic implementation (images and
  videos, everything inline in `main`), modelled here in namespace `Mono`;
* `src/index.ts` — the images-only implementation, modelled in namespace
  `IndexTs`.

The embedding is shallow: the filesystem is an explicit tree of entries,
external encoders (sharp / ffmpeg) are oracles supplied as parameters, and a
run of `main` is represented by the sequence of observable events it performs
(dimension probes, creation of the output directory, encode invocations,
process exit) together with its outcome (early exit, fatal error, or the list
of written outputs and the two size totals).

Path arithmetic (`extname`, `join`, `dirname`, `basename`, the
`\.[^.]+$` extension-replacing regex) is modelled on the character lists
underlying `String`.  `join` is modelled as separator concatenation; Node's
additional normalisation of `.` and duplicated separators is not needed by any
claim.  Node's `extname` special case for names consisting only of dots
(`".."`) is omitted: `readdir` never yields such entries.
-/

/-- Image extensions, from `IMAGE_EXTS` in the sources (identical in all three
variants). -/
def IMAGE_EXTS : List String := [".jpg", ".jpeg", ".png", ".webp", ".avif", ".tiff", ".gif"]

/-- Video extensions, from `VIDEO_EXTS` in `part_000` and `part_001`. -/
def VIDEO_EXTS : List String := [".mp4", ".mov", ".avi", ".mkv", ".webm", ".m4v"]

/-- The `type` field of a `MediaFile` (`"image" | "video"`). -/
inductive MediaType where
  | image
  | video
deriving DecidableEq, Repr

/-- The `MediaFile` record of `part_000` / `part_001`.  The optional
`width`/`height` fields are filled by `loadDimensions` and used only for
display labels, so runs leave them at `none`. -/
structure MediaFile where
  path : String
  name : String
  relativePath : String
  size : Nat
  type : MediaType
  width : Option Nat := none
  height : Option Nat := none
deriving DecidableEq, Repr

/-- A filesystem tree entry, as seen through `readdir(dir, {withFileTypes})`:
a regular file with a byte size, or a directory with its own listing. -/
inductive Entry where
  | file (name : String) (size : Nat)
  | dir (name : String) (entries : List Entry)

/-- Node `path.join(a, b)` for the clean inputs produced by the tool:
concatenation with a `/` separator. -/
def pjoin (a b : String) : String := if a = "" then b else a ++ "/" ++ b

/-- Node `path.basename`: the part of the path after the last `/` (the whole
path when it has no separator). -/
def basename (s : String) : String :=
  String.mk ((s.toList.reverse.takeWhile (fun c => c ≠ '/')).reverse)

/-- Node `path.dirname`: the part before the last `/`, `"."` when the path has
no separator, `"/"` when the last separator is leading. -/
def dirname (s : String) : String :=
  match s.toList.reverse.dropWhile (fun c => c ≠ '/') with
  | [] => "."
  | _ :: pre => if pre = [] then "/" else String.mk pre.reverse

/-- Node `path.extname` on an entry name: the suffix starting at the last dot,
`""` when there is no dot or the only dot is the leading character. -/
def extname (name : String) : String :=
  let rev := name.toList.reverse
  match rev.dropWhile (fun c => c ≠ '.') with
  | [] => ""
  | _ :: pre => if pre = [] then "" else String.mk ('.' :: (rev.takeWhile (fun c => c ≠ '.')).reverse)

/-- JavaScript `toLowerCase()` on the ASCII extension strings at hand:
character-wise lowering. -/
def toLowerStr (s : String) : String := String.mk (s.toList.map Char.toLower)

/-- The classification performed on each regular file in `findMedia`
(`part_000` lines 199–211, `part_001` lines 34–53): lowercase the extension,
then test membership in the two extension lists (image first). -/
def classify (name : String) : Option MediaType :=
  let ext := toLowerStr (extname name)
  if IMAGE_EXTS.contains ext then some .image
  else if VIDEO_EXTS.contains ext then some .video
  else none

/-- The JavaScript `s.replace(/\.[^.]+$/, ext)` used to build `outputRelative`,
on the underlying character list: if the list has a dot followed by a nonempty
dot-free suffix, replace from that last dot on by `e`; otherwise return the
list unchanged. -/
def replExtL (l e : List Char) : List Char :=
  let rev := l.reverse
  let tail := rev.takeWhile (fun c => c ≠ '.')
  match rev.dropWhile (fun c => c ≠ '.') with
  | [] => l
  | _ :: pre => if tail = [] then l else pre.reverse ++ e

/-- The part of the list kept to the left of the replaced extension. -/
def stripExtL (l : List Char) : List Char :=
  let rev := l.reverse
  let tail := rev.takeWhile (fun c => c ≠ '.')
  match rev.dropWhile (fun c => c ≠ '.') with
  | [] => l
  | _ :: pre => if tail = [] then l else pre.reverse

/-- The JavaScript `s.replace(/\.[^.]+$/, ext)` on strings. -/
def replaceLastExt (s ext : String) : String := String.mk (replExtL s.toList ext.toList)

/-- The stem left of the last extension: `replaceLastExt s ext` is
`stripLastExt s ++ ext` whenever the regex matches. -/
def stripLastExt (s : String) : String := String.mk (stripExtL s.toList)

example : extname "a.JPG" = ".JPG" := by decide
example : classify "a.JPG" = some .image := by decide
example : classify ".jpg" = none := by decide
example : classify "clip.MOV" = some .video := by decide
example : classify "notes.txt" = none := by decide
example : replaceLastExt "sub/pic.tar.png" ".webp" = "sub/pic.tar.webp" := by decide
example : replaceLastExt "noext" ".webp" = "noext" := by decide
example : replaceLastExt "trailingdot." ".webp" = "trailingdot." := by decide
example : stripLastExt "a.png" = "a" := by decide

/-- A raw regular file reached by the walk, before classification. -/
structure RawFile where
  path : String
  name : String
  relativePath : String
  size : Nat
deriving DecidableEq, Repr

/-- Every regular file of the tree, in traversal order, with its absolute and
relative path (the recursion pattern of `findMedia` without the
classification step). -/
def allFiles (abs rel : String) : List Entry → List RawFile
  | [] => []
  | .file n sz :: rest =>
      { path := pjoin abs n, name := n, relativePath := pjoin rel n, size := sz } ::
        allFiles abs rel rest
  | .dir n es :: rest =>
      allFiles (pjoin abs n) (pjoin rel n) es ++ allFiles abs rel rest

/-- The `MediaFile` built by `findMedia` for a classified raw file. -/
def mediaOf (f : RawFile) (t : MediaType) : MediaFile :=
  { path := f.path, name := f.name, relativePath := f.relativePath, size := f.size, type := t }

namespace Img4Web

/-- Model of `findMedia(dir, baseDir)` in `part_000` (lines 189–217): walk the listing,
recurse into directories in place, and keep each regular file whose lowercased
extension is an image or video extension.  `abs` is the current directory path
and `rel` the path of the current directory relative to `baseDir`, so that
`relative(baseDir, fullPath)` is `pjoin rel name`. -/
def findMedia (abs rel : String) : List Entry → List MediaFile
  | [] => []
  | .file n sz :: rest =>
      (match classify n with
       | some t => [mediaOf { path := pjoin abs n, name := n, relativePath := pjoin rel n, size := sz } t]
       | none => []) ++ findMedia abs rel rest
  | .dir n es :: rest =>
      findMedia (pjoin abs n) (pjoin rel n) es ++ findMedia abs rel rest

end Img4Web

example :
    Img4Web.findMedia "a/in" "" [.file "x.PNG" 7, .dir "sub" [.file "v.mov" 9], .file "r.txt" 1] =
      [{ path := "a/in/x.PNG", name := "x.PNG", relativePath := "x.PNG", size := 7, type := .image },
       { path := "a/in/sub/v.mov", name := "v.mov", relativePath := "sub/v.mov", size := 9, type := .video }] := by
  simp only [Img4Web.findMedia]
  decide

/-- The resize step `pipeline.resize(maxWidth, null, { withoutEnlargement: true })`
of the sharp pipeline (height `null`, i.e. kept proportional). -/
structure Resize where
  width : Nat
  withoutEnlargement : Bool
deriving DecidableEq, Repr

/-- The sharp pipeline built by `compressImage`: input, output, optional
resize step, and the WebP quality. -/
structure ImageJob where
  input : String
  output : String
  resize : Option Resize
  quality : Nat
deriving DecidableEq, Repr

/-- One external encoder invocation: a sharp WebP pipeline or an ffmpeg
argument list. -/
inductive Job where
  | img (job : ImageJob)
  | vid (args : List String)
deriving DecidableEq, Repr

/-- The ffmpeg filter string `scale='min(${maxWidth},iw)':-2` pushed by
`compressVideo` when a positive max width is selected. -/
def vfFilter (w : Nat) : String := "scale=\x27min(" ++ Nat.repr w ++ ",iw)\x27:-2"

/-- The mode selected by the user (`"fast" | "custom"`); CLI invocations of
`part_000` always run in fast mode. -/
inductive Mode where
  | fast
  | custom
deriving DecidableEq, Repr

/-- An observable step of a run: an external dimension probe (sharp `metadata`
or ffprobe), creation of the top-level output directory, an external encode
invocation (sharp `toFile` or ffmpeg), or a process exit. -/
inductive Event where
  | probe (input : String)
  | mkdirOut (dir : String)
  | encode (input : String) (output : String) (job : Job)
  | exitEv (code : Nat) (msg : String)
deriving DecidableEq, Repr

/-- The outcome of a run of `main`: an explicit `process.exit`, a fatal thrown
error (caught by `main().catch`, which exits with status 1), or normal
completion with the written outputs and the two accumulated totals. -/
inductive Outcome where
  | earlyExit (code : Nat) (msg : String)
  | fatal (msg : String)
  | ok (outputs : List (String × Job)) (totalOriginal totalCompressed : Nat)
deriving DecidableEq, Repr

/-- An encoder oracle that always succeeds, returning the size the external
tool writes for a given output path and job. -/
def okOracle (sz : String → Job → Nat) : String → Job → Except String Nat :=
  fun p j => .ok (sz p j)

/-- The state left by one of the sequential processing loops: its event trace,
the outputs written so far, the two accumulated totals, and the message of the
first thrown error, if any. -/
structure LoopResult where
  events : List Event
  outputs : List (String × Job)
  totalOriginal : Nat
  totalCompressed : Nat
  err : Option String
deriving DecidableEq, Repr

namespace Img4Web

/-- Model of `compressImage` in `part_000` (lines 229–237): resize only when `maxWidth`
is present and positive (`maxWidth && maxWidth > 0`), then WebP at quality 75. -/
def compressImage (inputPath outputPath : String) (maxWidth : Option Nat) : ImageJob :=
  { input := inputPath, output := outputPath,
    resize := match maxWidth with
      | some w => if 0 < w then some { width := w, withoutEnlargement := true } else none
      | none => none,
    quality := 75 }

/-- Model of `compressVideo` in `part_000` (lines 239–249): the ffmpeg argument list,
with the scale filter appended only when `maxWidth` is present and positive. -/
def compressVideo (inputPath outputPath : String) (maxWidth : Option Nat) : List String :=
  ["-y", "-i", inputPath, "-c:v", "libx264", "-crf", "28", "-preset", "fast",
   "-c:a", "aac", "-b:a", "128k"]
    ++ (match maxWidth with
        | some w => if 0 < w then ["-vf", vfFilter w] else []
        | none => [])
    ++ [outputPath]

/-- Model of `processFile` in `part_000` (lines 251–264): pick the target extension from
the file type, replace the last extension of the relative path, join with the
output directory, and dispatch to the matching encoder. -/
def processFile (file : MediaFile) (outputDir : String) (maxWidth : Option Nat) :
    String × Job :=
  let ext := match file.type with | .image => ".webp" | .video => ".mp4"
  let outputRelative := replaceLastExt file.relativePath ext
  let outputPath := pjoin outputDir outputRelative
  match file.type with
  | .image => (outputPath, .img (compressImage file.path outputPath maxWidth))
  | .video => (outputPath, .vid (compressVideo file.path outputPath maxWidth))

/-- Model of `loadDimensions` in `part_000` (lines 340–352): one external probe per
file, in list order (sharp `metadata()` for images, ffprobe for videos). -/
def loadDimensions (media : List MediaFile) : List Event :=
  media.map (fun f => .probe f.path)

/-- The processing loop of `main` (lines 381–395): files strictly in order,
one encode invocation each; a throw aborts the loop before the totals of the
failing file are added. -/
def runLoop (enc : String → Job → Except String Nat) (outputDir : String)
    (mw : MediaFile → Option Nat) : List MediaFile → LoopResult
  | [] => { events := [], outputs := [], totalOriginal := 0, totalCompressed := 0, err := none }
  | f :: rest =>
    let pj := processFile f outputDir (mw f)
    match enc pj.1 pj.2 with
    | .error e =>
        { events := [.encode f.path pj.1 pj.2], outputs := [],
          totalOriginal := 0, totalCompressed := 0, err := some e }
    | .ok sz =>
        let r := runLoop enc outputDir mw rest
        { events := .encode f.path pj.1 pj.2 :: r.events,
          outputs := pj :: r.outputs,
          totalOriginal := f.size + r.totalOriginal,
          totalCompressed := sz + r.totalCompressed,
          err := r.err }

/-- The per-file `maxWidth` of the loop (line 383): the per-file selection in
custom mode, `undefined` in fast mode. -/
def maxWidthFor (mode : Mode) (choice : MediaFile → Nat) (f : MediaFile) : Option Nat :=
  match mode with
  | .fast => none
  | .custom => some (choice f)

/-- The output directory (line 375): `join(dirname(folderPath),
basename(folderPath) + "-compressed")`, a sibling of the input folder. -/
def outputDirOf (folderPath : String) : String :=
  pjoin (dirname folderPath) (basename folderPath ++ "-compressed")

/-- Model of `main` in `part_000` (lines 354–404) as an event trace plus outcome,
parameterised by the selected mode, the per-file custom width selection, and
the encoder oracle.  Dimensions are probed only in custom mode (line 373). -/
def mainRun (folderPath : String) (tree : List Entry) (mode : Mode)
    (choice : MediaFile → Nat) (enc : String → Job → Except String Nat) :
    List Event × Outcome :=
  let allMedia := findMedia folderPath "" tree
  if allMedia.isEmpty then
    ([.exitEv 1 "No images or videos found"], .earlyExit 1 "No images or videos found")
  else
    let probes := match mode with | .custom => loadDimensions allMedia | .fast => []
    let outputDir := outputDirOf folderPath
    let r := runLoop enc outputDir (maxWidthFor mode choice) allMedia
    match r.err with
    | some e => (probes ++ .mkdirOut outputDir :: r.events ++ [.exitEv 1 e], .fatal e)
    | none => (probes ++ .mkdirOut outputDir :: r.events, .ok r.outputs r.totalOriginal r.totalCompressed)

end Img4Web

namespace Mono

/-- Model of `findMedia` in `part_001` (lines 23–58): same walk as the refactored
version, written with an `if / else if` push per extension list. -/
def findMedia (abs rel : String) : List Entry → List MediaFile
  | [] => []
  | .file n sz :: rest =>
      let ext := toLowerStr (extname n)
      if IMAGE_EXTS.contains ext then
        mediaOf { path := pjoin abs n, name := n, relativePath := pjoin rel n, size := sz } .image ::
          findMedia abs rel rest
      else if VIDEO_EXTS.contains ext then
        mediaOf { path := pjoin abs n, name := n, relativePath := pjoin rel n, size := sz } .video ::
          findMedia abs rel rest
      else
        findMedia abs rel rest
  | .dir n es :: rest =>
      findMedia (pjoin abs n) (pjoin rel n) es ++ findMedia abs rel rest

/-- Model of `compressVideo` in `part_001` (lines 70–81): identical argument list to
the refactored version. -/
def compressVideo (inputPath outputPath : String) (maxWidth : Option Nat) : List String :=
  ["-y", "-i", inputPath, "-c:v", "libx264", "-crf", "28", "-preset", "fast",
   "-c:a", "aac", "-b:a", "128k"]
    ++ (match maxWidth with
        | some w => if 0 < w then ["-vf", vfFilter w] else []
        | none => [])
    ++ [outputPath]

/-- The output path and encoder invocation built inline by the fast-mode loop
of `part_001` (lines 177–199): plain WebP pipeline for images, ffmpeg without
a `maxWidth` for videos. -/
def fastJob (outputDir : String) (f : MediaFile) : String × Job :=
  match f.type with
  | .image =>
      let outputPath := pjoin outputDir (replaceLastExt f.relativePath ".webp")
      (outputPath, .img { input := f.path, output := outputPath, resize := none, quality := 75 })
  | .video =>
      let outputPath := pjoin outputDir (replaceLastExt f.relativePath ".mp4")
      (outputPath, .vid (compressVideo f.path outputPath none))

/-- The output path and encoder invocation built inline by the custom-mode
loop of `part_001` (lines 227–261) for the selected width `w`: resize step
only when `w > 0` for images, ffmpeg with `maxWidth = w` for videos. -/
def customJob (outputDir : String) (w : Nat) (f : MediaFile) : String × Job :=
  match f.type with
  | .image =>
      let outputPath := pjoin outputDir (replaceLastExt f.relativePath ".webp")
      (outputPath,
       .img { input := f.path, output := outputPath,
              resize := if 0 < w then some { width := w, withoutEnlargement := true } else none,
              quality := 75 })
  | .video =>
      let outputPath := pjoin outputDir (replaceLastExt f.relativePath ".mp4")
      (outputPath, .vid (compressVideo f.path outputPath (some w)))

/-- The fast-mode loop of `part_001` (lines 169–202): sequential, one encode
per file, totals added after the encode returns. -/
def runFast (enc : String → Job → Except String Nat) (outputDir : String) :
    List MediaFile → LoopResult
  | [] => { events := [], outputs := [], totalOriginal := 0, totalCompressed := 0, err := none }
  | f :: rest =>
    let pj := fastJob outputDir f
    match enc pj.1 pj.2 with
    | .error e =>
        { events := [.encode f.path pj.1 pj.2], outputs := [],
          totalOriginal := 0, totalCompressed := 0, err := some e }
    | .ok sz =>
        let r := runFast enc outputDir rest
        { events := .encode f.path pj.1 pj.2 :: r.events,
          outputs := pj :: r.outputs,
          totalOriginal := f.size + r.totalOriginal,
          totalCompressed := sz + r.totalCompressed,
          err := r.err }

/-- The custom-mode loop of `part_001` (lines 203–263): per-file width
selection, otherwise the same sequential shape as the fast loop. -/
def runCustom (enc : String → Job → Except String Nat) (outputDir : String)
    (choice : MediaFile → Nat) : List MediaFile → LoopResult
  | [] => { events := [], outputs := [], totalOriginal := 0, totalCompressed := 0, err := none }
  | f :: rest =>
    let pj := customJob outputDir (choice f) f
    match enc pj.1 pj.2 with
    | .error e =>
        { events := [.encode f.path pj.1 pj.2], outputs := [],
          totalOriginal := 0, totalCompressed := 0, err := some e }
    | .ok sz =>
        let r := runCustom enc outputDir choice rest
        { events := .encode f.path pj.1 pj.2 :: r.events,
          outputs := pj :: r.outputs,
          totalOriginal := f.size + r.totalOriginal,
          totalCompressed := sz + r.totalCompressed,
          err := r.err }

/-- Model of `savings` in `part_001` (line 265): the reported saving is the difference
of the two totals. -/
def savings (totalOriginal totalCompressed : Nat) : Int :=
  (totalOriginal : Int) - (totalCompressed : Int)

/-- Model of `main` in `part_001` (lines 89–272) as an event trace plus outcome.  All
files are probed for dimensions up front (images first, lines 131–142), the
work list is `[...images, ...videos]` (line 145), and the mode only selects
which loop runs. -/
def mainRun (folderPath : String) (tree : List Entry) (mode : Mode)
    (choice : MediaFile → Nat) (enc : String → Job → Except String Nat) :
    List Event × Outcome :=
  let allMedia := findMedia folderPath "" tree
  if allMedia.isEmpty then
    ([.exitEv 1 "No images or videos found"], .earlyExit 1 "No images or videos found")
  else
    let images := allMedia.filter (fun m => m.type == .image)
    let videos := allMedia.filter (fun m => m.type == .video)
    let probes := images.map (fun f => Event.probe f.path) ++ videos.map (fun f => Event.probe f.path)
    let mediaToProcess := images ++ videos
    let outputDir := pjoin (dirname folderPath) (basename folderPath ++ "-compressed")
    let r := match mode with
             | .fast => runFast enc outputDir mediaToProcess
             | .custom => runCustom enc outputDir choice mediaToProcess
    match r.err with
    | some e => (probes ++ .mkdirOut outputDir :: r.events ++ [.exitEv 1 e], .fatal e)
    | none => (probes ++ .mkdirOut outputDir :: r.events, .ok r.outputs r.totalOriginal r.totalCompressed)

end Mono

namespace IndexTs

/-- Model of `findImages` in `src/index.ts` (lines 18–43): the same walk restricted to
the image extensions; the `ImageFile` record has no `type` field, so the raw
file record models it. -/
def findImages (abs rel : String) : List Entry → List RawFile
  | [] => []
  | .file n sz :: rest =>
      if IMAGE_EXTS.contains (toLowerStr (extname n)) then
        { path := pjoin abs n, name := n, relativePath := pjoin rel n, size := sz } ::
          findImages abs rel rest
      else
        findImages abs rel rest
  | .dir n es :: rest =>
      findImages (pjoin abs n) (pjoin rel n) es ++ findImages abs rel rest

/-- The fast-mode loop of `src/index.ts` (lines 119–141): WebP at quality 75,
no resize. -/
def runFast (enc : String → Job → Except String Nat) (outputDir : String) :
    List RawFile → LoopResult
  | [] => { events := [], outputs := [], totalOriginal := 0, totalCompressed := 0, err := none }
  | f :: rest =>
    let outputPath := pjoin outputDir (replaceLastExt f.relativePath ".webp")
    let job := Job.img { input := f.path, output := outputPath, resize := none, quality := 75 }
    match enc outputPath job with
    | .error e =>
        { events := [.encode f.path outputPath job], outputs := [],
          totalOriginal := 0, totalCompressed := 0, err := some e }
    | .ok sz =>
        let r := runFast enc outputDir rest
        { events := .encode f.path outputPath job :: r.events,
          outputs := (outputPath, job) :: r.outputs,
          totalOriginal := f.size + r.totalOriginal,
          totalCompressed := sz + r.totalCompressed,
          err := r.err }

/-- The custom-mode loop of `src/index.ts` (lines 142–188): resize step when
the selected width is positive. -/
def runCustom (enc : String → Job → Except String Nat) (outputDir : String)
    (choice : RawFile → Nat) : List RawFile → LoopResult
  | [] => { events := [], outputs := [], totalOriginal := 0, totalCompressed := 0, err := none }
  | f :: rest =>
    let outputPath := pjoin outputDir (replaceLastExt f.relativePath ".webp")
    let job := Job.img
      { input := f.path, output := outputPath,
        resize := if 0 < choice f then
            some { width := choice f, withoutEnlargement := true }
          else none,
        quality := 75 }
    match enc outputPath job with
    | .error e =>
        { events := [.encode f.path outputPath job], outputs := [],
          totalOriginal := 0, totalCompressed := 0, err := some e }
    | .ok sz =>
        let r := runCustom enc outputDir choice rest
        { events := .encode f.path outputPath job :: r.events,
          outputs := (outputPath, job) :: r.outputs,
          totalOriginal := f.size + r.totalOriginal,
          totalCompressed := sz + r.totalCompressed,
          err := r.err }

/-- Model of `main` in `src/index.ts` (lines 51–197) as an event trace plus outcome:
note the empty-folder message is `"No images found"` and all images are probed
before the mode prompt (lines 84–94). -/
def mainRun (folderPath : String) (tree : List Entry) (mode : Mode)
    (choice : RawFile → Nat) (enc : String → Job → Except String Nat) :
    List Event × Outcome :=
  let allImages := findImages folderPath "" tree
  if allImages.isEmpty then
    ([.exitEv 1 "No images found"], .earlyExit 1 "No images found")
  else
    let probes := allImages.map (fun f => Event.probe f.path)
    let outputDir := pjoin (dirname folderPath) (basename folderPath ++ "-compressed")
    let r := match mode with
             | .fast => runFast enc outputDir allImages
             | .custom => runCustom enc outputDir choice allImages
    match r.err with
    | some e => (probes ++ .mkdirOut outputDir :: r.events ++ [.exitEv 1 e], .fatal e)
    | none => (probes ++ .mkdirOut outputDir :: r.events, .ok r.outputs r.totalOriginal r.totalCompressed)

end IndexTs

/-- Whether an event is an external-tool invocation reading or encoding the
file at input path `p` (a dimension probe or an encode). -/
def isToolFor (p : String) : Event → Bool
  | .probe q => q == p
  | .encode q _ _ => q == p
  | _ => false

/-- How many external-tool invocations of a trace touch the input path `p`. -/
def toolInvocationsFor (evs : List Event) (p : String) : Nat :=
  (evs.filter (isToolFor p)).length

/-- The job whose output survives at path `p` after all writes of a run: the
last write to `p` wins. -/
def finalWrite (outs : List (String × Job)) (p : String) : Option Job :=
  ((outs.filter (fun o => o.1 == p)).getLast?).map Prod.snd

/-- A sample discovered image file, as `findMedia "a/in" ""` builds it for a
tree containing a single regular file `pic.jpg` of 5 bytes. -/
def samplePic : MediaFile :=
  { path := "a/in/pic.jpg", name := "pic.jpg", relativePath := "pic.jpg", size := 5,
    type := .image }

section Helpers

/-- The walk of `part_000` keeps exactly the classified regular files of the
tree, in traversal order. -/
theorem findMedia_eq_filterMap (abs rel : String) (es : List Entry) :
    Img4Web.findMedia abs rel es =
      (allFiles abs rel es).filterMap (fun f => (classify f.name).map (mediaOf f)) := by
  induction abs, rel, es using Img4Web.findMedia.induct with
  | case1 abs rel => simp [Img4Web.findMedia, allFiles]
  | case2 abs rel n sz rest ih =>
      cases hc : classify n <;>
        simp [Img4Web.findMedia, allFiles, hc, ih, List.filterMap_cons]
  | case3 abs rel n es rest ih1 ih2 =>
      simp [Img4Web.findMedia, allFiles, ih1, ih2, List.filterMap_append]

/-- The walk of `part_001` computes the same list as the refactored
`findMedia` of `part_000`. -/
theorem Mono.findMedia_eq (abs rel : String) (es : List Entry) :
    Mono.findMedia abs rel es = Img4Web.findMedia abs rel es := by
  induction abs, rel, es using Mono.findMedia.induct with
  | case1 abs rel => simp [Mono.findMedia, Img4Web.findMedia]
  | case2 abs rel n sz rest hi ih =>
      simp only [Mono.findMedia, Img4Web.findMedia, classify]
      simp_all
  | case3 abs rel n sz rest hi hv ih =>
      simp only [Mono.findMedia, Img4Web.findMedia, classify]
      simp_all
  | case4 abs rel n sz rest hi hv ih =>
      simp only [Mono.findMedia, Img4Web.findMedia, classify]
      simp_all
  | case5 abs rel n es rest ih1 ih2 =>
      simp [Mono.findMedia, Img4Web.findMedia, ih1, ih2]

/-- No extension string is in both extension lists. -/
theorem ext_lists_disjoint (s : String) (h : s ∈ VIDEO_EXTS) : s ∉ IMAGE_EXTS := by
  simp only [VIDEO_EXTS, List.mem_cons, List.not_mem_nil, or_false] at h
  rcases h with h | h | h | h | h | h <;> subst h <;> decide

/-- Classification as an image is exactly membership of the lowercased
extension in `IMAGE_EXTS`. -/
theorem classify_image_iff (n : String) :
    classify n = some .image ↔ toLowerStr (extname n) ∈ IMAGE_EXTS := by
  simp only [classify]
  by_cases hi : IMAGE_EXTS.contains (toLowerStr (extname n)) <;>
    by_cases hv : VIDEO_EXTS.contains (toLowerStr (extname n)) <;>
      simp_all [List.contains, List.elem_iff]

/-- Classification as a video is exactly membership of the lowercased
extension in `VIDEO_EXTS` (the lists are disjoint, so the image test cannot
preempt it). -/
theorem classify_video_iff (n : String) :
    classify n = some .video ↔ toLowerStr (extname n) ∈ VIDEO_EXTS := by
  simp only [classify]
  by_cases hi : IMAGE_EXTS.contains (toLowerStr (extname n)) <;>
    by_cases hv : VIDEO_EXTS.contains (toLowerStr (extname n)) <;>
      simp_all [List.contains, List.elem_iff]
  exact ext_lists_disjoint _ hv hi

/-- Unclassified names are exactly those in neither extension list. -/
theorem classify_none_iff (n : String) :
    classify n = none ↔
      toLowerStr (extname n) ∉ IMAGE_EXTS ∧ toLowerStr (extname n) ∉ VIDEO_EXTS := by
  simp only [classify]
  by_cases hi : IMAGE_EXTS.contains (toLowerStr (extname n)) <;>
    by_cases hv : VIDEO_EXTS.contains (toLowerStr (extname n)) <;>
      simp_all [List.contains, List.elem_iff]

end Helpers

/-- C2.  During the walk a regular file is classified as an image exactly when
its lowercased extension is one of the image extensions, as a video exactly
when it is one of the video extensions, and is omitted otherwise; `findMedia`
(in both `part_000` and `part_001`) returns exactly the so-classified files of
the whole tree — the classification filter applied to every regular file of
every subdirectory, in traversal order. -/
theorem c2_walk_classification (abs rel n : String) (es : List Entry) :
    Img4Web.findMedia abs rel es =
      (allFiles abs rel es).filterMap (fun f => (classify f.name).map (mediaOf f))
    ∧ Mono.findMedia abs rel es =
      (allFiles abs rel es).filterMap (fun f => (classify f.name).map (mediaOf f))
    ∧ (classify n = some .image ↔ toLowerStr (extname n) ∈ IMAGE_EXTS)
    ∧ (classify n = some .video ↔ toLowerStr (extname n) ∈ VIDEO_EXTS)
    ∧ (classify n = none ↔
        toLowerStr (extname n) ∉ IMAGE_EXTS ∧ toLowerStr (extname n) ∉ VIDEO_EXTS) := by
  refine ⟨findMedia_eq_filterMap abs rel es, ?_, classify_image_iff n,
    classify_video_iff n, classify_none_iff n⟩
  rw [Mono.findMedia_eq]
  exact findMedia_eq_filterMap abs rel es


section PathLemmas

/-- Unfolding lemma: `toList` is the underlying character data. -/
theorem toList_data (s : String) : s.toList = s.data := rfl

/-- Character data of a join with a nonempty left part. -/
theorem data_pjoin (a b : String) (ha : a ≠ "") :
    (pjoin a b).data = a.data ++ '/' :: b.data := by
  have hs : ("/" : String).data = ['/'] := rfl
  simp [pjoin, ha, hs]

/-- The element at which `dropWhile` stops falsifies the predicate. -/
theorem dropWhile_head_false {α : Type} (p : α → Bool) :
    ∀ (l : List α) (c : α) (t : List α), l.dropWhile p = c :: t → p c = false := by
  intro l
  induction l with
  | nil => intro c t h; simp at h
  | cons a l ih =>
      intro c t h
      cases hpa : p a with
      | true => rw [List.dropWhile_cons, if_pos hpa] at h; exact ih c t h
      | false =>
          rw [List.dropWhile_cons, if_neg (by simp [hpa])] at h
          cases h
          exact hpa

/-- The extension-replacing regex only touches the suffix after the last dot:
prepending anything to a list whose reverse starts with a nonempty dot-free
run followed by a dot leaves the prefix intact. -/
theorem replExtL_append (a b e : List Char)
    (h1 : b.reverse.takeWhile (fun c => c ≠ '.') ≠ [])
    (h2 : b.reverse.dropWhile (fun c => c ≠ '.') ≠ []) :
    replExtL (a ++ b) e = a ++ replExtL b e := by
  obtain ⟨c, p, hcp⟩ := List.exists_cons_of_ne_nil h2
  have hlen : ¬ (b.reverse.takeWhile (fun c => c ≠ '.')).length = b.reverse.length := by
    intro hl
    have h3 := congrArg List.length
      (List.takeWhile_append_dropWhile (p := fun c => decide (c ≠ '.')) (l := b.reverse))
    rw [hcp] at h3
    simp only [List.length_append, List.length_cons] at h3
    omega
  simp only [replExtL, List.reverse_append, List.dropWhile_append, List.takeWhile_append]
  rw [hcp]
  simp only [List.isEmpty_cons, Bool.false_eq_true, if_false, if_neg hlen, if_neg h1,
    List.cons_append, List.reverse_append, List.reverse_reverse, List.append_assoc]

/-- Structure of a name accepted by the classifier: its reverse starts with a
nonempty dot-free run, then a dot, then a nonempty remainder. -/
theorem classify_structure (n : String) (t : MediaType) (hc : classify n = some t) :
    n.data.reverse.takeWhile (fun c => c ≠ '.') ≠ [] ∧
    ∃ p, n.data.reverse.dropWhile (fun c => c ≠ '.') = '.' :: p ∧ p ≠ [] := by
  have hmem : toLowerStr (extname n) ∈ IMAGE_EXTS ∨ toLowerStr (extname n) ∈ VIDEO_EXTS := by
    cases t
    · exact .inl ((classify_image_iff n).mp hc)
    · exact .inr ((classify_video_iff n).mp hc)
  cases hd : n.data.reverse.dropWhile (fun c => c ≠ '.') with
  | nil =>
      exfalso
      have hext : extname n = "" := by
        simp only [extname, toList_data, hd]
      rw [hext] at hmem
      exact absurd hmem (by decide)
  | cons c p =>
      have hcdot : c = '.' := by
        have hfalse := dropWhile_head_false (fun c => decide (c ≠ '.')) n.data.reverse c p hd
        simpa using hfalse
      subst hcdot
      by_cases hpe : p = []
      · exfalso
        have hext : extname n = "" := by
          simp only [extname, toList_data, hd, if_pos hpe]
        rw [hext] at hmem
        exact absurd hmem (by decide)
      · by_cases hte : n.data.reverse.takeWhile (fun c => c ≠ '.') = []
        · exfalso
          have hext : extname n = "." := by
            simp only [extname, toList_data, hd, if_neg hpe, hte]
            rfl
          rw [hext] at hmem
          exact absurd hmem (by decide)
        · exact ⟨hte, p, rfl, hpe⟩

/-- Replacing the extension of a joined path only rewrites the final name
component, for any name the classifier accepted. -/
theorem replaceLastExt_pjoin (pre n ext : String) (t : MediaType)
    (hc : classify n = some t) :
    replaceLastExt (pjoin pre n) ext = pjoin pre (replaceLastExt n ext) := by
  obtain ⟨h1, p, hd, hp⟩ := classify_structure n t hc
  by_cases hpre : pre = ""
  · simp [pjoin, hpre]
  · apply String.ext
    have h2 : n.data.reverse.dropWhile (fun c => c ≠ '.') ≠ [] := by rw [hd]; simp
    have hdata : (pjoin pre n).toList = (pre.data ++ ['/']) ++ n.data := by
      rw [toList_data, data_pjoin pre n hpre]
      simp
    have hrepl : replExtL ((pre.data ++ ['/']) ++ n.data) ext.toList =
        (pre.data ++ ['/']) ++ replExtL n.data ext.toList :=
      replExtL_append (pre.data ++ ['/']) n.data ext.toList h1 h2
    rw [replaceLastExt, hdata]
    show replExtL ((pre.data ++ ['/']) ++ n.data) ext.toList = _
    rw [hrepl, data_pjoin pre _ hpre]
    show (pre.data ++ ['/']) ++ replExtL n.data ext.toList =
      pre.data ++ '/' :: (replaceLastExt n ext).data
    show (pre.data ++ ['/']) ++ replExtL n.data ext.toList =
      pre.data ++ '/' :: replExtL n.data ext.toList
    simp

/-- For a name the classifier accepted, replacing the extension yields the
stem followed by the new extension. -/
theorem replaceLastExt_eq_strip (n ext : String) (t : MediaType)
    (hc : classify n = some t) :
    replaceLastExt n ext = stripLastExt n ++ ext := by
  obtain ⟨h1, p, hd, hp⟩ := classify_structure n t hc
  apply String.ext
  show replExtL n.data ext.toList = (stripLastExt n ++ ext).data
  rw [String.data_append, stripLastExt]
  show _ = stripExtL n.data ++ ext.data
  simp only [replExtL, stripExtL, toList_data, hd, if_neg h1]

/-- A classified name is its stem followed by its extension: replacing the
final extension really replaces `extname`. -/
theorem name_eq_strip_extname (n : String) (t : MediaType) (hc : classify n = some t) :
    n = stripLastExt n ++ extname n := by
  obtain ⟨h1, p, hd, hp⟩ := classify_structure n t hc
  apply String.ext
  have key := List.takeWhile_append_dropWhile (p := fun c => decide (c ≠ '.')) (l := n.data.reverse)
  rw [hd] at key
  rw [String.data_append, stripLastExt]
  show n.data = stripExtL n.data ++ (extname n).data
  simp only [stripExtL, extname, toList_data, hd, if_neg h1, if_neg hp]
  show n.data = p.reverse ++ ('.' :: (n.data.reverse.takeWhile (fun c => c ≠ '.')).reverse)
  have hrev : n.data = (n.data.reverse).reverse := by simp
  conv_lhs => rw [hrev, ← key]
  simp

end PathLemmas

/-- Every file returned by `findMedia` carries a name its type classifies, and
a relative path that is its name under some relative directory. -/
theorem findMedia_shape (abs rel : String) (es : List Entry) :
    ∀ f ∈ Img4Web.findMedia abs rel es,
      classify f.name = some f.type ∧ ∃ d, f.relativePath = pjoin d f.name := by
  induction abs, rel, es using Img4Web.findMedia.induct with
  | case1 abs rel => intro f hf; simp [Img4Web.findMedia] at hf
  | case2 abs rel n sz rest ih =>
      intro f hf
      simp only [Img4Web.findMedia] at hf
      rcases List.mem_append.mp hf with hf | hf
      · cases hc : classify n with
        | none => rw [hc] at hf; simp at hf
        | some t =>
            rw [hc] at hf
            simp only [List.mem_singleton] at hf
            subst hf
            refine ⟨?_, rel, ?_⟩ <;> simp [mediaOf, hc]
      · exact ih f hf
  | case3 abs rel n es rest ih1 ih2 =>
      intro f hf
      simp only [Img4Web.findMedia] at hf
      rcases List.mem_append.mp hf with hf | hf
      · exact ih1 f hf
      · exact ih2 f hf

/-- C1.  Every media file found by the walk is re-encoded according to its
classified type: an image through a sharp WebP pipeline at quality 75, a video
through ffmpeg with `-c:v libx264 -crf 28 -c:a aac -b:a 128k`; in both cases
the output file's name is the input's name with its final extension replaced
by `.webp` (images) or `.mp4` (videos), placed under the output directory at
the file's relative directory. -/
theorem c1_reencode (abs rel outDir : String) (tree : List Entry) (mw : Option Nat)
    (f : MediaFile) (hf : f ∈ Img4Web.findMedia abs rel tree) :
    ∃ d, f.relativePath = pjoin d f.name ∧
      f.name = stripLastExt f.name ++ extname f.name ∧
      (f.type = .image →
        ∃ j : ImageJob,
          Img4Web.processFile f outDir mw =
            (pjoin outDir (pjoin d (stripLastExt f.name ++ ".webp")), .img j) ∧
          j.input = f.path ∧
          j.output = pjoin outDir (pjoin d (stripLastExt f.name ++ ".webp")) ∧
          j.quality = 75) ∧
      (f.type = .video →
        ∃ args : List String,
          Img4Web.processFile f outDir mw =
            (pjoin outDir (pjoin d (stripLastExt f.name ++ ".mp4")), .vid args) ∧
          List.IsInfix ["-i", f.path] args ∧
          List.IsInfix ["-c:v", "libx264"] args ∧
          List.IsInfix ["-crf", "28"] args ∧
          List.IsInfix ["-c:a", "aac"] args ∧
          List.IsInfix ["-b:a", "128k"] args ∧
          args.getLast? = some (pjoin outDir (pjoin d (stripLastExt f.name ++ ".mp4")))) := by
  obtain ⟨hc, d, hd⟩ := findMedia_shape abs rel tree f hf
  refine ⟨d, hd, name_eq_strip_extname f.name f.type hc, ?_, ?_⟩
  · intro himg
    have hrepl : replaceLastExt f.relativePath ".webp" =
        pjoin d (stripLastExt f.name ++ ".webp") := by
      rw [hd, replaceLastExt_pjoin d f.name ".webp" f.type hc,
        replaceLastExt_eq_strip f.name ".webp" f.type hc]
    refine ⟨Img4Web.compressImage f.path
      (pjoin outDir (pjoin d (stripLastExt f.name ++ ".webp"))) mw, ?_, rfl, rfl, rfl⟩
    simp only [Img4Web.processFile, himg, hrepl]
  · intro hvid
    have hrepl : replaceLastExt f.relativePath ".mp4" =
        pjoin d (stripLastExt f.name ++ ".mp4") := by
      rw [hd, replaceLastExt_pjoin d f.name ".mp4" f.type hc,
        replaceLastExt_eq_strip f.name ".mp4" f.type hc]
    set out := pjoin outDir (pjoin d (stripLastExt f.name ++ ".mp4")) with hout
    refine ⟨Img4Web.compressVideo f.path out mw, ?_, ?_, ?_, ?_, ?_, ?_, ?_⟩
    · simp only [Img4Web.processFile, hvid, hrepl]
    · exact ⟨["-y"], ["-c:v", "libx264", "-crf", "28", "-preset", "fast", "-c:a", "aac",
        "-b:a", "128k"] ++ ((match mw with
          | some w => if 0 < w then ["-vf", vfFilter w] else []
          | none => []) ++ [out]),
        by simp [Img4Web.compressVideo]⟩
    · exact ⟨["-y", "-i", f.path], ["-crf", "28", "-preset", "fast", "-c:a", "aac",
        "-b:a", "128k"] ++ ((match mw with
          | some w => if 0 < w then ["-vf", vfFilter w] else []
          | none => []) ++ [out]),
        by simp [Img4Web.compressVideo]⟩
    · exact ⟨["-y", "-i", f.path, "-c:v", "libx264"], ["-preset", "fast", "-c:a", "aac",
        "-b:a", "128k"] ++ ((match mw with
          | some w => if 0 < w then ["-vf", vfFilter w] else []
          | none => []) ++ [out]),
        by simp [Img4Web.compressVideo]⟩
    · exact ⟨["-y", "-i", f.path, "-c:v", "libx264", "-crf", "28", "-preset", "fast"],
        ["-b:a", "128k"] ++ ((match mw with
          | some w => if 0 < w then ["-vf", vfFilter w] else []
          | none => []) ++ [out]),
        by simp [Img4Web.compressVideo]⟩
    · exact ⟨["-y", "-i", f.path, "-c:v", "libx264", "-crf", "28", "-preset", "fast",
        "-c:a", "aac"],
        (match mw with
          | some w => if 0 < w then ["-vf", vfFilter w] else []
          | none => []) ++ [out],
        by simp [Img4Web.compressVideo]⟩
    · rw [Img4Web.compressVideo.eq_def]
      exact List.getLast?_concat _

section RunLemmas

/-- With an always-succeeding encoder the loop of `part_000` processes every
file, in order, with one encode invocation and one output per file, and the
totals are the two list sums. -/
theorem runLoop_okOracle (sz : String → Job → Nat) (outDir : String)
    (mw : MediaFile → Option Nat) (fs : List MediaFile) :
    Img4Web.runLoop (okOracle sz) outDir mw fs =
      { events := fs.map (fun f => .encode f.path
          (Img4Web.processFile f outDir (mw f)).1 (Img4Web.processFile f outDir (mw f)).2),
        outputs := fs.map (fun f => Img4Web.processFile f outDir (mw f)),
        totalOriginal := (fs.map MediaFile.size).sum,
        totalCompressed := (fs.map (fun f =>
          sz (Img4Web.processFile f outDir (mw f)).1 (Img4Web.processFile f outDir (mw f)).2)).sum,
        err := none } := by
  induction fs with
  | nil => rfl
  | cons f rest ih => simp [Img4Web.runLoop, okOracle, ih]

/-- The function `compressVideo` is identical in `part_000` and `part_001`. -/
theorem Mono.compressVideo_eq (i o : String) (mw : Option Nat) :
    Mono.compressVideo i o mw = Img4Web.compressVideo i o mw := rfl

/-- The inline fast-mode job of `part_001` coincides with `processFile` of
`part_000` with no `maxWidth`. -/
theorem Mono.fastJob_eq (outDir : String) (f : MediaFile) :
    Mono.fastJob outDir f = Img4Web.processFile f outDir none := by
  cases h : f.type <;>
    simp [Mono.fastJob, Img4Web.processFile, Img4Web.compressImage, h,
      Mono.compressVideo_eq]

/-- The inline custom-mode job of `part_001` coincides with `processFile` of
`part_000` with the selected width. -/
theorem Mono.customJob_eq (outDir : String) (w : Nat) (f : MediaFile) :
    Mono.customJob outDir w f = Img4Web.processFile f outDir (some w) := by
  cases h : f.type <;>
    simp [Mono.customJob, Img4Web.processFile, Img4Web.compressImage, h,
      Mono.compressVideo_eq]

/-- The fast-mode loop of `part_001` is the loop of `part_000` with no
`maxWidth`. -/
theorem Mono.runFast_eq (enc : String → Job → Except String Nat) (outDir : String)
    (fs : List MediaFile) :
    Mono.runFast enc outDir fs = Img4Web.runLoop enc outDir (fun _ => none) fs := by
  induction fs with
  | nil => rfl
  | cons f rest ih =>
      simp only [Mono.runFast, Img4Web.runLoop, Mono.fastJob_eq, ih]

/-- The custom-mode loop of `part_001` is the loop of `part_000` with the
per-file selected widths. -/
theorem Mono.runCustom_eq (enc : String → Job → Except String Nat) (outDir : String)
    (choice : MediaFile → Nat) (fs : List MediaFile) :
    Mono.runCustom enc outDir choice fs =
      Img4Web.runLoop enc outDir (fun f => some (choice f)) fs := by
  induction fs with
  | nil => rfl
  | cons f rest ih =>
      simp only [Mono.runCustom, Img4Web.runLoop, Mono.customJob_eq, ih]

end RunLemmas

/-- Full description of a successful run of `part_000`'s `main`: probes only
in custom mode, one `mkdir` of the output directory, one encode per found
file in traversal order, and totals that are list sums. -/
theorem Img4Web.mainRun_okOracle (folderPath : String) (tree : List Entry) (mode : Mode)
    (choice : MediaFile → Nat) (sz : String → Job → Nat)
    (hne : Img4Web.findMedia folderPath "" tree ≠ []) :
    Img4Web.mainRun folderPath tree mode choice (okOracle sz) =
      (let media := Img4Web.findMedia folderPath "" tree
       let outDir := Img4Web.outputDirOf folderPath
       let pf := fun f => Img4Web.processFile f outDir (Img4Web.maxWidthFor mode choice f)
       ((match mode with
         | .custom => Img4Web.loadDimensions media
         | .fast => []) ++
         .mkdirOut outDir :: media.map (fun f => .encode f.path (pf f).1 (pf f).2),
        .ok (media.map pf) ((media.map MediaFile.size).sum)
          ((media.map (fun f => sz (pf f).1 (pf f).2)).sum))) := by
  simp only [Img4Web.mainRun]
  rw [if_neg (by simpa [List.isEmpty_iff] using hne)]
  simp only [runLoop_okOracle]

/-- Full description of a successful run of `part_001`'s `main`: every file
probed up front (images first), one `mkdir`, then one encode per file with all
images processed before all videos. -/
theorem Mono.mainRun_okOracle_mono (folderPath : String) (tree : List Entry) (mode : Mode)
    (choice : MediaFile → Nat) (sz : String → Job → Nat)
    (hne : Mono.findMedia folderPath "" tree ≠ []) :
    Mono.mainRun folderPath tree mode choice (okOracle sz) =
      (let allMedia := Mono.findMedia folderPath "" tree
       let images := allMedia.filter (fun m => m.type == .image)
       let videos := allMedia.filter (fun m => m.type == .video)
       let mediaToProcess := images ++ videos
       let outDir := pjoin (dirname folderPath) (basename folderPath ++ "-compressed")
       let pf := fun f => Img4Web.processFile f outDir (Img4Web.maxWidthFor mode choice f)
       (images.map (fun f => Event.probe f.path) ++ videos.map (fun f => Event.probe f.path) ++
         .mkdirOut outDir :: mediaToProcess.map (fun f => .encode f.path (pf f).1 (pf f).2),
        .ok (mediaToProcess.map pf) ((mediaToProcess.map MediaFile.size).sum)
          ((mediaToProcess.map (fun f => sz (pf f).1 (pf f).2)).sum))) := by
  simp only [Mono.mainRun]
  rw [if_neg (by simpa [List.isEmpty_iff] using hne)]
  cases mode with
  | fast =>
      simp only [Mono.runFast_eq, runLoop_okOracle]
      rfl
  | custom =>
      simp only [Mono.runCustom_eq, runLoop_okOracle]
      rfl

/-- Witness for C1: the single image `pic.jpg` in folder `a/in`, fast mode. -/
theorem c1_reencode_witness :
    ∃ d, samplePic.relativePath = pjoin d samplePic.name ∧
      samplePic.name = stripLastExt samplePic.name ++ extname samplePic.name ∧
      (samplePic.type = .image →
        ∃ j : ImageJob,
          Img4Web.processFile samplePic "o" none =
            (pjoin "o" (pjoin d (stripLastExt samplePic.name ++ ".webp")), .img j) ∧
          j.input = samplePic.path ∧
          j.output = pjoin "o" (pjoin d (stripLastExt samplePic.name ++ ".webp")) ∧
          j.quality = 75) ∧
      (samplePic.type = .video →
        ∃ args : List String,
          Img4Web.processFile samplePic "o" none =
            (pjoin "o" (pjoin d (stripLastExt samplePic.name ++ ".mp4")), .vid args) ∧
          List.IsInfix ["-i", samplePic.path] args ∧
          List.IsInfix ["-c:v", "libx264"] args ∧
          List.IsInfix ["-crf", "28"] args ∧
          List.IsInfix ["-c:a", "aac"] args ∧
          List.IsInfix ["-b:a", "128k"] args ∧
          args.getLast? = some (pjoin "o" (pjoin d (stripLastExt samplePic.name ++ ".mp4")))) :=
  c1_reencode "a/in" "" "o" [Entry.file "pic.jpg" 5] none samplePic
    (by simp only [Img4Web.findMedia]; decide)

/-- C3.  In a completed run, each found media file's output is written at
`join(outputDir, relativePath with its extension replaced)`, where `outputDir`
is the sibling `{folder}-compressed` of the input folder; and since the
relative path is the file's name under its relative directory, the outputs
mirror the input tree's relative folder structure. -/
theorem c3_output_tree (folderPath : String) (tree : List Entry) (mode : Mode)
    (choice : MediaFile → Nat) (sz : String → Job → Nat) (outs : List (String × Job))
    (torig tcomp : Nat)
    (hok : (Img4Web.mainRun folderPath tree mode choice (okOracle sz)).2 = .ok outs torig tcomp) :
    Img4Web.outputDirOf folderPath =
      pjoin (dirname folderPath) (basename folderPath ++ "-compressed") ∧
    outs.map Prod.fst = (Img4Web.findMedia folderPath "" tree).map (fun f =>
      pjoin (Img4Web.outputDirOf folderPath)
        (replaceLastExt f.relativePath
          (match f.type with | .image => ".webp" | .video => ".mp4"))) ∧
    ∀ f ∈ Img4Web.findMedia folderPath "" tree, ∃ d,
      f.relativePath = pjoin d f.name ∧
      pjoin (Img4Web.outputDirOf folderPath)
          (replaceLastExt f.relativePath
            (match f.type with | .image => ".webp" | .video => ".mp4")) =
        pjoin (Img4Web.outputDirOf folderPath)
          (pjoin d (replaceLastExt f.name
            (match f.type with | .image => ".webp" | .video => ".mp4"))) := by
  have hne : Img4Web.findMedia folderPath "" tree ≠ [] := by
    intro h
    rw [Img4Web.mainRun.eq_def, if_pos (by simp [h])] at hok
    simp at hok
  rw [Img4Web.mainRun_okOracle folderPath tree mode choice sz hne] at hok
  simp only [Outcome.ok.injEq] at hok
  obtain ⟨houts, -, -⟩ := hok
  refine ⟨rfl, ?_, ?_⟩
  · subst houts
    rw [List.map_map]
    refine List.map_congr_left ?_
    intro f _
    cases h : f.type <;>
      simp [Img4Web.processFile, h, Function.comp]
  · intro f hf
    obtain ⟨hc, d, hd⟩ := findMedia_shape folderPath "" tree f hf
    refine ⟨d, hd, ?_⟩
    cases h : f.type <;>
      rw [hd, replaceLastExt_pjoin d f.name _ f.type hc]

/-- Witness for C3: a one-image tree under folder `a/in` in fast mode. -/
theorem c3_output_tree_witness :
    Img4Web.outputDirOf "a/in" =
      pjoin (dirname "a/in") (basename "a/in" ++ "-compressed") ∧
    ([("a/in-compressed/pic.webp",
        Job.img { input := "a/in/pic.jpg", output := "a/in-compressed/pic.webp",
                  resize := none, quality := 75 })].map Prod.fst) =
      (Img4Web.findMedia "a/in" "" [Entry.file "pic.jpg" 5]).map (fun f =>
        pjoin (Img4Web.outputDirOf "a/in")
          (replaceLastExt f.relativePath
            (match f.type with | .image => ".webp" | .video => ".mp4"))) ∧
    ∀ f ∈ Img4Web.findMedia "a/in" "" [Entry.file "pic.jpg" 5], ∃ d,
      f.relativePath = pjoin d f.name ∧
      pjoin (Img4Web.outputDirOf "a/in")
          (replaceLastExt f.relativePath
            (match f.type with | .image => ".webp" | .video => ".mp4")) =
        pjoin (Img4Web.outputDirOf "a/in")
          (pjoin d (replaceLastExt f.name
            (match f.type with | .image => ".webp" | .video => ".mp4"))) :=
  c3_output_tree "a/in" [Entry.file "pic.jpg" 5] .fast (fun _ => 0) (fun _ _ => 3)
    [("a/in-compressed/pic.webp",
      Job.img { input := "a/in/pic.jpg", output := "a/in-compressed/pic.webp",
                resize := none, quality := 75 })] 5 3
    (by
      have hm : Img4Web.findMedia "a/in" "" [Entry.file "pic.jpg" 5] = [samplePic] := by
        simp only [Img4Web.findMedia]
        decide
      simp only [Img4Web.mainRun, hm]
      decide)

/-- Splitting a media list into its images followed by its videos permutes it. -/
theorem filter_partition_perm (media : List MediaFile) :
    (media.filter (fun m => m.type == .image) ++
      media.filter (fun m => m.type == .video)).Perm media := by
  have h1 : media.filter (fun m => m.type == .video) =
      media.filter (fun m => !(m.type == .image)) :=
    List.filter_congr (fun m _ => by cases m.type <;> rfl)
  rw [h1]
  exact List.filter_append_perm _ media

/-- C5.  When processing completes, `totalOriginal` is the exact integer sum
of the input sizes of all processed media files, `totalCompressed` is the
exact integer sum of the written output sizes, and the reported saving is
their difference — in both the refactored and the monolithic implementation. -/
theorem c5_totals (folderPath : String) (tree : List Entry) (mode : Mode)
    (choice : MediaFile → Nat) (sz : String → Job → Nat) :
    (∀ outs torig tcomp,
      (Img4Web.mainRun folderPath tree mode choice (okOracle sz)).2 = .ok outs torig tcomp →
      torig = ((Img4Web.findMedia folderPath "" tree).map MediaFile.size).sum ∧
      tcomp = (outs.map (fun o => sz o.1 o.2)).sum) ∧
    (∀ outs torig tcomp,
      (Mono.mainRun folderPath tree mode choice (okOracle sz)).2 = .ok outs torig tcomp →
      torig = ((Mono.findMedia folderPath "" tree).map MediaFile.size).sum ∧
      tcomp = (outs.map (fun o => sz o.1 o.2)).sum ∧
      Mono.savings torig tcomp = (torig : Int) - (tcomp : Int)) := by
  constructor
  · intro outs torig tcomp hok
    have hne : Img4Web.findMedia folderPath "" tree ≠ [] := by
      intro h
      rw [Img4Web.mainRun.eq_def, if_pos (by simp [h])] at hok
      simp at hok
    rw [Img4Web.mainRun_okOracle folderPath tree mode choice sz hne] at hok
    simp only [Outcome.ok.injEq] at hok
    obtain ⟨houts, hto, htc⟩ := hok
    subst houts
    exact ⟨hto.symm, by rw [← htc, List.map_map]; rfl⟩
  · intro outs torig tcomp hok
    have hne : Mono.findMedia folderPath "" tree ≠ [] := by
      intro h
      rw [Mono.mainRun.eq_def, if_pos (by simp [h])] at hok
      simp at hok
    rw [Mono.mainRun_okOracle_mono folderPath tree mode choice sz hne] at hok
    simp only [Outcome.ok.injEq] at hok
    obtain ⟨houts, hto, htc⟩ := hok
    subst houts
    refine ⟨?_, by rw [← htc, List.map_map]; rfl, rfl⟩
    rw [← hto]
    exact List.Perm.sum_eq
      (((filter_partition_perm (Mono.findMedia folderPath "" tree)).map MediaFile.size))

/-- Witness for C5: a one-image tree under folder `a/in` in fast mode. -/
theorem c5_totals_witness :
    (∀ outs torig tcomp,
      (Img4Web.mainRun "a/in" [Entry.file "pic.jpg" 5] .fast (fun _ => 0)
        (okOracle (fun _ _ => 3))).2 = .ok outs torig tcomp →
      torig = ((Img4Web.findMedia "a/in" "" [Entry.file "pic.jpg" 5]).map MediaFile.size).sum ∧
      tcomp = (outs.map (fun o => (fun _ _ => 3 : String → Job → Nat) o.1 o.2)).sum) ∧
    (∀ outs torig tcomp,
      (Mono.mainRun "a/in" [Entry.file "pic.jpg" 5] .fast (fun _ => 0)
        (okOracle (fun _ _ => 3))).2 = .ok outs torig tcomp →
      torig = ((Mono.findMedia "a/in" "" [Entry.file "pic.jpg" 5]).map MediaFile.size).sum ∧
      tcomp = (outs.map (fun o => (fun _ _ => 3 : String → Job → Nat) o.1 o.2)).sum ∧
      Mono.savings torig tcomp = (torig : Int) - (tcomp : Int)) :=
  c5_totals "a/in" [Entry.file "pic.jpg" 5] .fast (fun _ => 0) (fun _ _ => 3)

/-- C4.  Downscaling happens only in custom mode with a positive selected
width: the sharp pipeline then resizes to that width without enlargement and
ffmpeg scales with `min(width, iw)`; in fast mode, or when the selected value
is `0`, no resize step and no scale filter is emitted, keeping original
dimensions.  `compressVideo` of `part_001` builds the same arguments. -/
theorem c4_downscale_mode (mode : Mode) (choice : MediaFile → Nat) (f : MediaFile)
    (inp out : String) :
    ((Img4Web.compressImage inp out (Img4Web.maxWidthFor mode choice f)).resize = none
        ↔ mode = .fast ∨ choice f = 0) ∧
    (mode = .custom → 0 < choice f →
      (Img4Web.compressImage inp out (Img4Web.maxWidthFor mode choice f)).resize =
        some { width := choice f, withoutEnlargement := true }) ∧
    (mode = .custom → 0 < choice f →
      Img4Web.compressVideo inp out (Img4Web.maxWidthFor mode choice f) =
        ["-y", "-i", inp, "-c:v", "libx264", "-crf", "28", "-preset", "fast",
         "-c:a", "aac", "-b:a", "128k", "-vf", vfFilter (choice f), out]) ∧
    ((mode = .fast ∨ choice f = 0) →
      Img4Web.compressVideo inp out (Img4Web.maxWidthFor mode choice f) =
        ["-y", "-i", inp, "-c:v", "libx264", "-crf", "28", "-preset", "fast",
         "-c:a", "aac", "-b:a", "128k", out]) ∧
    (∀ mw, Mono.compressVideo inp out mw = Img4Web.compressVideo inp out mw) := by
  refine ⟨?_, ?_, ?_, ?_, fun mw => Mono.compressVideo_eq inp out mw⟩
  · cases mode with
    | fast => simp [Img4Web.compressImage, Img4Web.maxWidthFor]
    | custom =>
        by_cases h : choice f = 0 <;>
          simp [Img4Web.compressImage, Img4Web.maxWidthFor, h, Nat.pos_of_ne_zero,
            Nat.pos_iff_ne_zero]
  · intro hm hw
    subst hm
    simp [Img4Web.compressImage, Img4Web.maxWidthFor, hw]
  · intro hm hw
    subst hm
    simp [Img4Web.compressVideo, Img4Web.maxWidthFor, hw]
  · intro hm
    rcases hm with hm | hw
    · subst hm
      simp [Img4Web.compressVideo, Img4Web.maxWidthFor]
    · cases mode <;>
        simp [Img4Web.compressVideo, Img4Web.maxWidthFor, hw]

/-- Witness for C4: custom mode with selected width 400. -/
theorem c4_downscale_mode_witness :
    ((Img4Web.compressImage "i" "o" (Img4Web.maxWidthFor .custom (fun _ => 400) samplePic)).resize = none
        ↔ Mode.custom = .fast ∨ (fun _ => 400 : MediaFile → Nat) samplePic = 0) ∧
    (Mode.custom = .custom → 0 < (fun _ => 400 : MediaFile → Nat) samplePic →
      (Img4Web.compressImage "i" "o" (Img4Web.maxWidthFor .custom (fun _ => 400) samplePic)).resize =
        some { width := (fun _ => 400 : MediaFile → Nat) samplePic, withoutEnlargement := true }) ∧
    (Mode.custom = .custom → 0 < (fun _ => 400 : MediaFile → Nat) samplePic →
      Img4Web.compressVideo "i" "o" (Img4Web.maxWidthFor .custom (fun _ => 400) samplePic) =
        ["-y", "-i", "i", "-c:v", "libx264", "-crf", "28", "-preset", "fast",
         "-c:a", "aac", "-b:a", "128k", "-vf",
         vfFilter ((fun _ => 400 : MediaFile → Nat) samplePic), "o"]) ∧
    ((Mode.custom = .fast ∨ (fun _ => 400 : MediaFile → Nat) samplePic = 0) →
      Img4Web.compressVideo "i" "o" (Img4Web.maxWidthFor .custom (fun _ => 400) samplePic) =
        ["-y", "-i", "i", "-c:v", "libx264", "-crf", "28", "-preset", "fast",
         "-c:a", "aac", "-b:a", "128k", "o"]) ∧
    (∀ mw, Mono.compressVideo "i" "o" mw = Img4Web.compressVideo "i" "o" mw) :=
  c4_downscale_mode .custom (fun _ => 400) samplePic "i" "o"

/-- The processing loop either succeeds on every file — one encode each, in
order — or stops at the first failing file, having attempted exactly the
files up to and including it, once each. -/
theorem runLoop_attempts (enc : String → Job → Except String Nat) (outDir : String)
    (mw : MediaFile → Option Nat) (fs : List MediaFile) :
    ((Img4Web.runLoop enc outDir mw fs).err = none ∧
      (Img4Web.runLoop enc outDir mw fs).events = fs.map (fun f =>
        .encode f.path (Img4Web.processFile f outDir (mw f)).1
          (Img4Web.processFile f outDir (mw f)).2) ∧
      ∀ f ∈ fs, ∃ s, enc (Img4Web.processFile f outDir (mw f)).1
        (Img4Web.processFile f outDir (mw f)).2 = .ok s)
    ∨ (∃ e pre x post, fs = pre ++ x :: post ∧
        (Img4Web.runLoop enc outDir mw fs).err = some e ∧
        enc (Img4Web.processFile x outDir (mw x)).1
          (Img4Web.processFile x outDir (mw x)).2 = .error e ∧
        (∀ g ∈ pre, ∃ s, enc (Img4Web.processFile g outDir (mw g)).1
          (Img4Web.processFile g outDir (mw g)).2 = .ok s) ∧
        (Img4Web.runLoop enc outDir mw fs).events = (pre ++ [x]).map (fun f =>
          .encode f.path (Img4Web.processFile f outDir (mw f)).1
            (Img4Web.processFile f outDir (mw f)).2)) := by
  induction fs with
  | nil => exact .inl ⟨rfl, rfl, by simp⟩
  | cons f rest ih =>
      cases he : enc (Img4Web.processFile f outDir (mw f)).1
          (Img4Web.processFile f outDir (mw f)).2 with
      | error e =>
          refine .inr ⟨e, [], f, rest, rfl, ?_, he, by simp, ?_⟩ <;>
            simp [Img4Web.runLoop, he]
      | ok s =>
          rcases ih with ⟨h1, h2, h3⟩ | ⟨e, pre, x, post, hfs, h1, h2, h3, h4⟩
          · refine .inl ⟨?_, ?_, ?_⟩
            · simp [Img4Web.runLoop, he, h1]
            · simp [Img4Web.runLoop, he, h2]
            · intro g hg
              rcases List.mem_cons.mp hg with hg | hg
              · exact hg ▸ ⟨s, he⟩
              · exact h3 g hg
          · refine .inr ⟨e, f :: pre, x, post, by simp [hfs], ?_, h2, ?_, ?_⟩
            · simp [Img4Web.runLoop, he, h1]
            · intro g hg
              rcases List.mem_cons.mp hg with hg | hg
              · exact hg ▸ ⟨s, he⟩
              · exact h3 g hg
            · simp [Img4Web.runLoop, he, h4]

/-- C7.  Files are processed strictly sequentially with no retry: in a
completed run every found file is attempted exactly once in traversal order;
if an encode throws, the attempted files are exactly those up to and including
the first failing one — each attempted once, the earlier ones successfully —
and `main` logs the error message and exits with status 1, so the failing file
is not re-attempted and no later file is processed. -/
theorem c7_sequential_no_retry (folderPath : String) (tree : List Entry) (mode : Mode)
    (choice : MediaFile → Nat) (enc : String → Job → Except String Nat) :
    ((Img4Web.runLoop enc (Img4Web.outputDirOf folderPath)
        (Img4Web.maxWidthFor mode choice) (Img4Web.findMedia folderPath "" tree)).err = none →
      (Img4Web.runLoop enc (Img4Web.outputDirOf folderPath)
        (Img4Web.maxWidthFor mode choice) (Img4Web.findMedia folderPath "" tree)).events =
        (Img4Web.findMedia folderPath "" tree).map (fun f =>
          .encode f.path
            (Img4Web.processFile f (Img4Web.outputDirOf folderPath)
              (Img4Web.maxWidthFor mode choice f)).1
            (Img4Web.processFile f (Img4Web.outputDirOf folderPath)
              (Img4Web.maxWidthFor mode choice f)).2)) ∧
    (∀ e, (Img4Web.runLoop enc (Img4Web.outputDirOf folderPath)
        (Img4Web.maxWidthFor mode choice) (Img4Web.findMedia folderPath "" tree)).err = some e →
      (∃ pre x post, Img4Web.findMedia folderPath "" tree = pre ++ x :: post ∧
        enc (Img4Web.processFile x (Img4Web.outputDirOf folderPath)
              (Img4Web.maxWidthFor mode choice x)).1
            (Img4Web.processFile x (Img4Web.outputDirOf folderPath)
              (Img4Web.maxWidthFor mode choice x)).2 = .error e ∧
        (∀ g ∈ pre, ∃ s, enc (Img4Web.processFile g (Img4Web.outputDirOf folderPath)
              (Img4Web.maxWidthFor mode choice g)).1
            (Img4Web.processFile g (Img4Web.outputDirOf folderPath)
              (Img4Web.maxWidthFor mode choice g)).2 = .ok s) ∧
        (Img4Web.runLoop enc (Img4Web.outputDirOf folderPath)
          (Img4Web.maxWidthFor mode choice) (Img4Web.findMedia folderPath "" tree)).events =
          (pre ++ [x]).map (fun f =>
            .encode f.path
              (Img4Web.processFile f (Img4Web.outputDirOf folderPath)
                (Img4Web.maxWidthFor mode choice f)).1
              (Img4Web.processFile f (Img4Web.outputDirOf folderPath)
                (Img4Web.maxWidthFor mode choice f)).2)) ∧
      Img4Web.mainRun folderPath tree mode choice enc =
        ((match mode with
          | .custom => Img4Web.loadDimensions (Img4Web.findMedia folderPath "" tree)
          | .fast => []) ++
          .mkdirOut (Img4Web.outputDirOf folderPath) ::
            (Img4Web.runLoop enc (Img4Web.outputDirOf folderPath)
              (Img4Web.maxWidthFor mode choice)
              (Img4Web.findMedia folderPath "" tree)).events ++ [.exitEv 1 e],
         .fatal e)) := by
  constructor
  · intro hnone
    rcases runLoop_attempts enc (Img4Web.outputDirOf folderPath)
        (Img4Web.maxWidthFor mode choice) (Img4Web.findMedia folderPath "" tree) with
      ⟨-, h2, -⟩ | ⟨e, pre, x, post, -, h1, -, -, -⟩
    · exact h2
    · rw [h1] at hnone
      cases hnone
  · intro e herr
    have hne : Img4Web.findMedia folderPath "" tree ≠ [] := by
      intro h
      rw [h] at herr
      cases herr
    constructor
    · rcases runLoop_attempts enc (Img4Web.outputDirOf folderPath)
          (Img4Web.maxWidthFor mode choice) (Img4Web.findMedia folderPath "" tree) with
        ⟨h1, -, -⟩ | ⟨e', pre, x, post, hfs, h1, h2, h3, h4⟩
      · rw [h1] at herr
        cases herr
      · rw [h1] at herr
        cases herr
        exact ⟨pre, x, post, hfs, h2, h3, h4⟩
    · rw [Img4Web.mainRun.eq_def, if_neg (by simpa [List.isEmpty_iff] using hne)]
      simp only [herr]

/-- Witness for C7: an oracle failing on every invocation and a one-image
tree stop the run after that single attempted file. -/
theorem c7_sequential_no_retry_witness :
    ((Img4Web.runLoop (fun _ _ => .error "boom") (Img4Web.outputDirOf "a/in")
        (Img4Web.maxWidthFor .fast (fun _ => 0))
        (Img4Web.findMedia "a/in" "" [Entry.file "pic.jpg" 5])).err = none →
      (Img4Web.runLoop (fun _ _ => .error "boom") (Img4Web.outputDirOf "a/in")
        (Img4Web.maxWidthFor .fast (fun _ => 0))
        (Img4Web.findMedia "a/in" "" [Entry.file "pic.jpg" 5])).events =
        (Img4Web.findMedia "a/in" "" [Entry.file "pic.jpg" 5]).map (fun f =>
          .encode f.path
            (Img4Web.processFile f (Img4Web.outputDirOf "a/in")
              (Img4Web.maxWidthFor .fast (fun _ => 0) f)).1
            (Img4Web.processFile f (Img4Web.outputDirOf "a/in")
              (Img4Web.maxWidthFor .fast (fun _ => 0) f)).2)) ∧
    (∀ e, (Img4Web.runLoop (fun _ _ => .error "boom") (Img4Web.outputDirOf "a/in")
        (Img4Web.maxWidthFor .fast (fun _ => 0))
        (Img4Web.findMedia "a/in" "" [Entry.file "pic.jpg" 5])).err = some e →
      (∃ pre x post, Img4Web.findMedia "a/in" "" [Entry.file "pic.jpg" 5] = pre ++ x :: post ∧
        (fun _ _ => (.error "boom" : Except String Nat))
            (Img4Web.processFile x (Img4Web.outputDirOf "a/in")
              (Img4Web.maxWidthFor .fast (fun _ => 0) x)).1
            (Img4Web.processFile x (Img4Web.outputDirOf "a/in")
              (Img4Web.maxWidthFor .fast (fun _ => 0) x)).2 = .error e ∧
        (∀ g ∈ pre, ∃ s, (fun _ _ => (.error "boom" : Except String Nat))
            (Img4Web.processFile g (Img4Web.outputDirOf "a/in")
              (Img4Web.maxWidthFor .fast (fun _ => 0) g)).1
            (Img4Web.processFile g (Img4Web.outputDirOf "a/in")
              (Img4Web.maxWidthFor .fast (fun _ => 0) g)).2 = .ok s) ∧
        (Img4Web.runLoop (fun _ _ => .error "boom") (Img4Web.outputDirOf "a/in")
          (Img4Web.maxWidthFor .fast (fun _ => 0))
          (Img4Web.findMedia "a/in" "" [Entry.file "pic.jpg" 5])).events =
          (pre ++ [x]).map (fun f =>
            .encode f.path
              (Img4Web.processFile f (Img4Web.outputDirOf "a/in")
                (Img4Web.maxWidthFor .fast (fun _ => 0) f)).1
              (Img4Web.processFile f (Img4Web.outputDirOf "a/in")
                (Img4Web.maxWidthFor .fast (fun _ => 0) f)).2)) ∧
      Img4Web.mainRun "a/in" [Entry.file "pic.jpg" 5] .fast (fun _ => 0)
          (fun _ _ => .error "boom") =
        ((match Mode.fast with
          | .custom => Img4Web.loadDimensions (Img4Web.findMedia "a/in" "" [Entry.file "pic.jpg" 5])
          | .fast => []) ++
          .mkdirOut (Img4Web.outputDirOf "a/in") ::
            (Img4Web.runLoop (fun _ _ => .error "boom") (Img4Web.outputDirOf "a/in")
              (Img4Web.maxWidthFor .fast (fun _ => 0))
              (Img4Web.findMedia "a/in" "" [Entry.file "pic.jpg" 5])).events ++ [.exitEv 1 e],
         .fatal e)) :=
  c7_sequential_no_retry "a/in" [Entry.file "pic.jpg" 5] .fast (fun _ => 0)
    (fun _ _ => .error "boom")

/-- C8.  For the same input folder, the same user choices and the same
deterministic encoder, the monolithic implementation (`part_001`) and the
refactored implementation (`part_000`) either both stop with the same
"no media" exit, or both complete with the same multiset of output files — so
the same set of output paths — and equal `totalOriginal` and
`totalCompressed`, even though `part_001` processes all images before all
videos while `part_000` processes files in traversal order. -/
theorem c8_mono_refactored_equivalent (folderPath : String) (tree : List Entry)
    (mode : Mode) (choice : MediaFile → Nat) (sz : String → Job → Nat) :
    (Img4Web.findMedia folderPath "" tree = [] →
      Img4Web.mainRun folderPath tree mode choice (okOracle sz) =
        ([.exitEv 1 "No images or videos found"], .earlyExit 1 "No images or videos found") ∧
      Mono.mainRun folderPath tree mode choice (okOracle sz) =
        ([.exitEv 1 "No images or videos found"], .earlyExit 1 "No images or videos found")) ∧
    (Img4Web.findMedia folderPath "" tree ≠ [] →
      ∃ outs0 torig0 tcomp0 outs1 torig1 tcomp1,
        (Img4Web.mainRun folderPath tree mode choice (okOracle sz)).2 =
          .ok outs0 torig0 tcomp0 ∧
        (Mono.mainRun folderPath tree mode choice (okOracle sz)).2 =
          .ok outs1 torig1 tcomp1 ∧
        outs1.Perm outs0 ∧ torig1 = torig0 ∧ tcomp1 = tcomp0 ∧
        (∀ p, p ∈ outs1.map Prod.fst ↔ p ∈ outs0.map Prod.fst)) := by
  constructor
  · intro h
    constructor
    · rw [Img4Web.mainRun.eq_def, if_pos (by simp [h])]
    · rw [Mono.mainRun.eq_def, if_pos (by simp [Mono.findMedia_eq, h])]
  · intro hne
    have hne1 : Mono.findMedia folderPath "" tree ≠ [] := by
      rw [Mono.findMedia_eq]
      exact hne
    rw [Img4Web.mainRun_okOracle folderPath tree mode choice sz hne,
      Mono.mainRun_okOracle_mono folderPath tree mode choice sz hne1]
    simp only [Mono.findMedia_eq, Img4Web.outputDirOf]
    refine ⟨_, _, _, _, _, _, rfl, rfl, ?_, ?_, ?_, ?_⟩
    · exact (filter_partition_perm (Img4Web.findMedia folderPath "" tree)).map _
    · exact List.Perm.sum_eq
        ((filter_partition_perm (Img4Web.findMedia folderPath "" tree)).map MediaFile.size)
    · exact List.Perm.sum_eq
        ((filter_partition_perm (Img4Web.findMedia folderPath "" tree)).map _)
    · intro p
      exact List.Perm.mem_iff
        (((filter_partition_perm (Img4Web.findMedia folderPath "" tree)).map _).map Prod.fst)

/-- Witness for C8: a tree with one image and one video under folder `a/in`. -/
theorem c8_mono_refactored_equivalent_witness :
    (Img4Web.findMedia "a/in" "" [Entry.file "v.mp4" 9, Entry.file "pic.jpg" 5] = [] →
      Img4Web.mainRun "a/in" [Entry.file "v.mp4" 9, Entry.file "pic.jpg" 5] .fast
          (fun _ => 0) (okOracle (fun _ _ => 3)) =
        ([.exitEv 1 "No images or videos found"], .earlyExit 1 "No images or videos found") ∧
      Mono.mainRun "a/in" [Entry.file "v.mp4" 9, Entry.file "pic.jpg" 5] .fast
          (fun _ => 0) (okOracle (fun _ _ => 3)) =
        ([.exitEv 1 "No images or videos found"], .earlyExit 1 "No images or videos found")) ∧
    (Img4Web.findMedia "a/in" "" [Entry.file "v.mp4" 9, Entry.file "pic.jpg" 5] ≠ [] →
      ∃ outs0 torig0 tcomp0 outs1 torig1 tcomp1,
        (Img4Web.mainRun "a/in" [Entry.file "v.mp4" 9, Entry.file "pic.jpg" 5] .fast
          (fun _ => 0) (okOracle (fun _ _ => 3))).2 = .ok outs0 torig0 tcomp0 ∧
        (Mono.mainRun "a/in" [Entry.file "v.mp4" 9, Entry.file "pic.jpg" 5] .fast
          (fun _ => 0) (okOracle (fun _ _ => 3))).2 = .ok outs1 torig1 tcomp1 ∧
        outs1.Perm outs0 ∧ torig1 = torig0 ∧ tcomp1 = tcomp0 ∧
        (∀ p, p ∈ outs1.map Prod.fst ↔ p ∈ outs0.map Prod.fst)) :=
  c8_mono_refactored_equivalent "a/in" [Entry.file "v.mp4" 9, Entry.file "pic.jpg" 5]
    .fast (fun _ => 0) (fun _ _ => 3)


/-- Invocation counts add over concatenated traces. -/
theorem toolInvocationsFor_append (a b : List Event) (p : String) :
    toolInvocationsFor (a ++ b) p = toolInvocationsFor a p + toolInvocationsFor b p := by
  simp [toolInvocationsFor, List.filter_append]

/-- Creating the output directory is not a tool invocation. -/
theorem toolInvocationsFor_cons_mkdir (d : String) (l : List Event) (p : String) :
    toolInvocationsFor (.mkdirOut d :: l) p = toolInvocationsFor l p := by
  simp [toolInvocationsFor, List.filter_cons, isToolFor]

/-- Counting the invocations of a per-file event map reduces to counting the
files with the given path. -/
theorem toolInvocationsFor_map_path (media : List MediaFile) (g : MediaFile → Event)
    (p : String) (hg : ∀ f, isToolFor p (g f) = (f.path == p)) :
    toolInvocationsFor (media.map g) p =
      (media.filter (fun f => f.path == p)).length := by
  unfold toolInvocationsFor
  rw [List.filter_map, List.length_map]
  congr 1
  exact List.filter_congr (fun f _ => hg f)

/-- Probe events touch exactly the files carrying the probed path. -/
theorem toolInvocationsFor_probes (media : List MediaFile) (p : String) :
    toolInvocationsFor (media.map (fun f => Event.probe f.path)) p =
      (media.filter (fun f => f.path == p)).length :=
  toolInvocationsFor_map_path media _ p (fun _ => rfl)

/-- Encode events touch exactly the files carrying the encoded input path. -/
theorem toolInvocationsFor_encodes (media : List MediaFile) (p : String)
    (out : MediaFile → String) (job : MediaFile → Job) :
    toolInvocationsFor (media.map (fun f => Event.encode f.path (out f) (job f))) p =
      (media.filter (fun f => f.path == p)).length :=
  toolInvocationsFor_map_path media _ p (fun _ => rfl)

/-- In a list of files with pairwise distinct paths, exactly one file carries
the path of a member. -/
theorem filter_path_eq_one (media : List MediaFile) (f : MediaFile)
    (hf : f ∈ media) (hnd : (media.map MediaFile.path).Nodup) :
    (media.filter (fun g => g.path == f.path)).length = 1 := by
  induction media with
  | nil => cases hf
  | cons m rest ih =>
      simp only [List.map_cons, List.nodup_cons] at hnd
      obtain ⟨hm, hnd⟩ := hnd
      rcases List.mem_cons.mp hf with rfl | hf
      · rw [List.filter_cons_of_pos (by simp)]
        have hrest : rest.filter (fun g => g.path == f.path) = [] := by
          rw [List.filter_eq_nil_iff]
          intro g hg
          simp only [beq_iff_eq]
          intro he
          exact hm (he ▸ List.mem_map_of_mem MediaFile.path hg)
        rw [hrest]
        rfl
      · have hmp : ¬ ((m.path == f.path) = true) := by
          simp only [beq_iff_eq]
          intro he
          exact hm (he ▸ List.mem_map_of_mem MediaFile.path hf)
        rw [List.filter_cons_of_neg (by simpa using hmp)]
        exact ih hf hnd

/-- Counterexample to C6 as stated: with a single image in fast mode the
refactored implementation performs one external-tool invocation for that file
(the encode), not two — `loadDimensions` runs only in custom mode. -/
theorem c6_two_invocations_counterexample :
    toolInvocationsFor
      (Img4Web.mainRun "a/in" [Entry.file "pic.jpg" 5] .fast (fun _ => 0)
        (okOracle (fun _ _ => 3))).1 "a/in/pic.jpg" = 1 ∧
    toolInvocationsFor
      (Img4Web.mainRun "a/in" [Entry.file "pic.jpg" 5] .fast (fun _ => 0)
        (okOracle (fun _ _ => 3))).1 "a/in/pic.jpg" ≠ 2 := by
  have hm : Img4Web.findMedia "a/in" "" [Entry.file "pic.jpg" 5] = [samplePic] := by
    simp only [Img4Web.findMedia]
    decide
  constructor <;>
    · simp only [Img4Web.mainRun, hm]
      decide

/-- C6 (amended).  Per media file with a unique path, the refactored
implementation performs exactly two external-tool invocations in custom mode
(the dimension probe and the encode) but only one in fast mode (the encode,
since `loadDimensions` runs only in custom mode); the monolithic
implementation performs exactly two in both modes, probing every file before
the mode prompt. -/
theorem c6_invocations_amended (folderPath : String) (tree : List Entry)
    (choice : MediaFile → Nat) (sz : String → Job → Nat) (f : MediaFile)
    (hf : f ∈ Img4Web.findMedia folderPath "" tree)
    (hnd : ((Img4Web.findMedia folderPath "" tree).map MediaFile.path).Nodup) :
    toolInvocationsFor
      (Img4Web.mainRun folderPath tree .custom choice (okOracle sz)).1 f.path = 2 ∧
    toolInvocationsFor
      (Img4Web.mainRun folderPath tree .fast choice (okOracle sz)).1 f.path = 1 ∧
    toolInvocationsFor
      (Mono.mainRun folderPath tree .custom choice (okOracle sz)).1 f.path = 2 ∧
    toolInvocationsFor
      (Mono.mainRun folderPath tree .fast choice (okOracle sz)).1 f.path = 2 := by
  have hne : Img4Web.findMedia folderPath "" tree ≠ [] := List.ne_nil_of_mem hf
  have hne1 : Mono.findMedia folderPath "" tree ≠ [] := by
    rw [Mono.findMedia_eq]; exact hne
  have hone : ((Img4Web.findMedia folderPath "" tree).filter
      (fun g => g.path == f.path)).length = 1 :=
    filter_path_eq_one _ f hf hnd
  have hperm := filter_partition_perm (Img4Web.findMedia folderPath "" tree)
  have honeM : (((Img4Web.findMedia folderPath "" tree).filter (fun m => m.type == .image) ++
      (Img4Web.findMedia folderPath "" tree).filter (fun m => m.type == .video)).filter
      (fun g => g.path == f.path)).length = 1 := by
    rw [(hperm.filter (fun g => g.path == f.path)).length_eq]
    exact hone
  have hsplit : (((Img4Web.findMedia folderPath "" tree).filter (fun m => m.type == .image)).filter
        (fun g => g.path == f.path)).length +
      (((Img4Web.findMedia folderPath "" tree).filter (fun m => m.type == .video)).filter
        (fun g => g.path == f.path)).length = 1 := by
    rw [← List.length_append, ← List.filter_append]
    exact honeM
  refine ⟨?_, ?_, ?_, ?_⟩
  · rw [Img4Web.mainRun_okOracle folderPath tree .custom choice sz hne]
    simp only [Img4Web.loadDimensions, toolInvocationsFor_append,
      toolInvocationsFor_cons_mkdir, toolInvocationsFor_probes, toolInvocationsFor_encodes]
    omega
  · rw [Img4Web.mainRun_okOracle folderPath tree .fast choice sz hne]
    simp only [toolInvocationsFor_append, toolInvocationsFor_cons_mkdir,
      toolInvocationsFor_probes, toolInvocationsFor_encodes, List.nil_append]
    exact hone
  · rw [Mono.mainRun_okOracle_mono folderPath tree .custom choice sz hne1]
    simp only [Mono.findMedia_eq, toolInvocationsFor_append,
      toolInvocationsFor_cons_mkdir, toolInvocationsFor_probes, toolInvocationsFor_encodes]
    omega
  · rw [Mono.mainRun_okOracle_mono folderPath tree .fast choice sz hne1]
    simp only [Mono.findMedia_eq, toolInvocationsFor_append,
      toolInvocationsFor_cons_mkdir, toolInvocationsFor_probes, toolInvocationsFor_encodes]
    omega

/-- Witness for the amended C6: one image under `a/in`. -/
theorem c6_invocations_amended_witness :
    toolInvocationsFor
      (Img4Web.mainRun "a/in" [Entry.file "pic.jpg" 5] .custom (fun _ => 0)
        (okOracle (fun _ _ => 3))).1 samplePic.path = 2 ∧
    toolInvocationsFor
      (Img4Web.mainRun "a/in" [Entry.file "pic.jpg" 5] .fast (fun _ => 0)
        (okOracle (fun _ _ => 3))).1 samplePic.path = 1 ∧
    toolInvocationsFor
      (Mono.mainRun "a/in" [Entry.file "pic.jpg" 5] .custom (fun _ => 0)
        (okOracle (fun _ _ => 3))).1 samplePic.path = 2 ∧
    toolInvocationsFor
      (Mono.mainRun "a/in" [Entry.file "pic.jpg" 5] .fast (fun _ => 0)
        (okOracle (fun _ _ => 3))).1 samplePic.path = 2 :=
  c6_invocations_amended "a/in" [Entry.file "pic.jpg" 5] (fun _ => 0) (fun _ _ => 3)
    samplePic
    (by simp only [Img4Web.findMedia]; decide)
    (by
      have hm : Img4Web.findMedia "a/in" "" [Entry.file "pic.jpg" 5] = [samplePic] := by
        simp only [Img4Web.findMedia]
        decide
      rw [hm]
      decide)

/-- C9.  The input-to-output path map is not injective: `a.jpg` and `a.png`
in the same directory are distinct media files whose outputs coincide at
`a/in-compressed/a.webp`, and in the run the write of the later file `a.png`
is the one that survives at that path. -/
theorem c9_output_collision :
    Img4Web.findMedia "a/in" "" [Entry.file "a.jpg" 10, Entry.file "a.png" 20] =
      [{ path := "a/in/a.jpg", name := "a.jpg", relativePath := "a.jpg", size := 10,
         type := .image },
       { path := "a/in/a.png", name := "a.png", relativePath := "a.png", size := 20,
         type := .image }] ∧
    ("a/in/a.jpg" : String) ≠ "a/in/a.png" ∧
    (Img4Web.processFile
        { path := "a/in/a.jpg", name := "a.jpg", relativePath := "a.jpg", size := 10,
          type := .image }
        (Img4Web.outputDirOf "a/in") none).1 =
      (Img4Web.processFile
        { path := "a/in/a.png", name := "a.png", relativePath := "a.png", size := 20,
          type := .image }
        (Img4Web.outputDirOf "a/in") none).1 ∧
    (∃ torig tcomp,
      (Img4Web.mainRun "a/in" [Entry.file "a.jpg" 10, Entry.file "a.png" 20] .fast
        (fun _ => 0) (okOracle (fun _ _ => 3))).2 =
        .ok [("a/in-compressed/a.webp",
               .img { input := "a/in/a.jpg", output := "a/in-compressed/a.webp",
                      resize := none, quality := 75 }),
             ("a/in-compressed/a.webp",
               .img { input := "a/in/a.png", output := "a/in-compressed/a.webp",
                      resize := none, quality := 75 })] torig tcomp) ∧
    finalWrite
        [("a/in-compressed/a.webp",
           .img { input := "a/in/a.jpg", output := "a/in-compressed/a.webp",
                  resize := none, quality := 75 }),
         ("a/in-compressed/a.webp",
           .img { input := "a/in/a.png", output := "a/in-compressed/a.webp",
                  resize := none, quality := 75 })] "a/in-compressed/a.webp" =
      some (.img { input := "a/in/a.png", output := "a/in-compressed/a.webp",
                   resize := none, quality := 75 }) := by
  have hm : Img4Web.findMedia "a/in" "" [Entry.file "a.jpg" 10, Entry.file "a.png" 20] =
      [{ path := "a/in/a.jpg", name := "a.jpg", relativePath := "a.jpg", size := 10,
         type := .image },
       { path := "a/in/a.png", name := "a.png", relativePath := "a.png", size := 20,
         type := .image }] := by
    simp only [Img4Web.findMedia]
    decide
  refine ⟨hm, by decide, by decide, ⟨30, 6, ?_⟩, by decide⟩
  simp only [Img4Web.mainRun, hm]
  decide

/-- Counterexample to C10 as stated: on a folder with no media the images-only
variant `src/index.ts` prints `"No images found"`, not the claimed
`"No images or videos found"`. -/
theorem c10_no_media_message_counterexample :
    IndexTs.mainRun "a/in" [Entry.file "notes.txt" 5] .fast (fun _ => 0)
        (okOracle (fun _ _ => 3)) =
      ([.exitEv 1 "No images found"], .earlyExit 1 "No images found") ∧
    ("No images found" : String) ≠ "No images or videos found" := by
  constructor
  · have hm : IndexTs.findImages "a/in" "" [Entry.file "notes.txt" 5] = [] := by
      simp only [IndexTs.findImages]
      decide
    simp only [IndexTs.mainRun, hm]
    decide
  · decide

/-- C10 (amended).  If the validated input folder contains no media anywhere
in its tree, each variant prints its "no media" error — `"No images or videos
found"` in `part_000` and `part_001`, `"No images found"` in the images-only
`src/index.ts` — and exits with status 1; the whole trace is that single exit,
so the output directory is not created and no external tool is invoked. -/
theorem c10_no_media_exit (folderPath : String) (tree : List Entry) (mode : Mode)
    (choice : MediaFile → Nat) (choiceR : RawFile → Nat)
    (enc : String → Job → Except String Nat) :
    (Img4Web.findMedia folderPath "" tree = [] →
      Img4Web.mainRun folderPath tree mode choice enc =
        ([.exitEv 1 "No images or videos found"],
         .earlyExit 1 "No images or videos found")) ∧
    (Mono.findMedia folderPath "" tree = [] →
      Mono.mainRun folderPath tree mode choice enc =
        ([.exitEv 1 "No images or videos found"],
         .earlyExit 1 "No images or videos found")) ∧
    (IndexTs.findImages folderPath "" tree = [] →
      IndexTs.mainRun folderPath tree mode choiceR enc =
        ([.exitEv 1 "No images found"], .earlyExit 1 "No images found")) := by
  refine ⟨fun h => ?_, fun h => ?_, fun h => ?_⟩
  · rw [Img4Web.mainRun.eq_def, if_pos (by simp [h])]
  · rw [Mono.mainRun.eq_def, if_pos (by simp [h])]
  · rw [IndexTs.mainRun.eq_def, if_pos (by simp [h])]

/-- Witness for the amended C10: a folder holding only `notes.txt`. -/
theorem c10_no_media_exit_witness :
    (Img4Web.findMedia "a/in" "" [Entry.file "notes.txt" 5] = [] →
      Img4Web.mainRun "a/in" [Entry.file "notes.txt" 5] .fast (fun _ => 0)
          (okOracle (fun _ _ => 3)) =
        ([.exitEv 1 "No images or videos found"],
         .earlyExit 1 "No images or videos found")) ∧
    (Mono.findMedia "a/in" "" [Entry.file "notes.txt" 5] = [] →
      Mono.mainRun "a/in" [Entry.file "notes.txt" 5] .fast (fun _ => 0)
          (okOracle (fun _ _ => 3)) =
        ([.exitEv 1 "No images or videos found"],
         .earlyExit 1 "No images or videos found")) ∧
    (IndexTs.findImages "a/in" "" [Entry.file "notes.txt" 5] = [] →
      IndexTs.mainRun "a/in" [Entry.file "notes.txt" 5] .fast (fun _ => 0)
          (okOracle (fun _ _ => 3)) =
        ([.exitEv 1 "No images found"], .earlyExit 1 "No images found")) :=
  c10_no_media_exit "a/in" [Entry.file "notes.txt" 5] .fast (fun _ => 0) (fun _ => 0)
    (okOracle (fun _ _ => 3))
